import Mathlib

/-!
Verification development for the Merkle Mountain Range leaf/node primitives
(`substrate/primitives/merkle-mountain-range/src/lib.rs`) and the staking
ledger consistency layer (`substrate/frame/staking/src/ledger.rs`).

Bytes are modelled as `List Nat`; the hash function `H` is an abstract
`List Nat → List Nat`. SCALE encoding details (compact length prefixes,
little-endian scalars, enum index bytes) are embedded faithfully for the
fragments the code uses.
-/

namespace Spec2Proof

/-- `toLE k n` is the `k`-byte little-endian encoding of `n` (mod `256 ^ k`). -/
def toLE : Nat → Nat → List Nat
  | 0, _ => []
  | k + 1, n => n % 256 :: toLE k (n / 256)

/-- Recompose a little-endian byte list into a natural number. -/
def fromLE : List Nat → Nat
  | [] => 0
  | b :: bs => b + 256 * fromLE bs

theorem toLE_length (k n : Nat) : (toLE k n).length = k := by
  induction k generalizing n with
  | zero => rfl
  | succ k ih => simp [toLE, ih]

theorem fromLE_toLE (k n : Nat) (h : n < 256 ^ k) : fromLE (toLE k n) = n := by
  induction k generalizing n with
  | zero =>
      simp only [pow_zero, Nat.lt_one_iff] at h
      simp [toLE, fromLE, h]
  | succ k ih =>
      have h2 : n / 256 < 256 ^ k := by
        rw [Nat.div_lt_iff_lt_mul (by norm_num : 0 < 256)]
        calc n < 256 ^ (k + 1) := h
        _ = 256 ^ k * 256 := by ring
      simp [toLE, fromLE, ih _ h2, Nat.mod_add_div]

/-- SCALE `Compact<u32>` encoding, used as the length prefix of `Vec<u8>`
encodings (`parity-scale-codec` compact mode). -/
def compactEncode (n : Nat) : List Nat :=
  if n < 64 then [n * 4]
  else if n < 2 ^ 14 then toLE 2 (n * 4 + 1)
  else if n < 2 ^ 30 then toLE 4 (n * 4 + 2)
  else 3 :: toLE 4 n

/-- SCALE `Compact<u32>` decoding from a byte stream: returns the value and
the remaining bytes. -/
def compactDecode : List Nat → Option (Nat × List Nat)
  | [] => none
  | b :: rest =>
    if b % 4 = 0 then some (b / 4, rest)
    else if b % 4 = 1 then
      match rest with
      | [] => none
      | b1 :: r => some ((b + 256 * b1) / 4, r)
    else if b % 4 = 2 then
      match rest with
      | b1 :: b2 :: b3 :: r =>
          some ((b + 256 * b1 + 256 ^ 2 * b2 + 256 ^ 3 * b3) / 4, r)
      | _ => none
    else
      if b / 4 + 4 ≤ rest.length then
        some (fromLE (rest.take (b / 4 + 4)), rest.drop (b / 4 + 4))
      else none

theorem compactDecode_encode (n : Nat) (rest : List Nat) (h : n < 2 ^ 32) :
    compactDecode (compactEncode n ++ rest) = some (n, rest) := by
  unfold compactEncode
  by_cases h1 : n < 64
  · rw [if_pos h1]
    simp only [List.cons_append, List.nil_append, compactDecode]
    have hm : n * 4 % 4 = 0 := Nat.mul_mod_left n 4
    rw [if_pos hm]
    have hd : n * 4 / 4 = n := Nat.mul_div_cancel n (by norm_num)
    rw [hd]
  · by_cases h2 : n < 2 ^ 14
    · simp only [if_neg h1, if_pos h2, toLE]
      simp only [compactDecode, List.cons_append]
      have hm : (n * 4 + 1) % 256 % 4 = 1 := by omega
      simp only [hm]
      norm_num
      omega
    · by_cases h3 : n < 2 ^ 30
      · simp only [if_neg h1, if_neg h2, if_pos h3, toLE]
        simp only [compactDecode, List.cons_append]
        have hm : (n * 4 + 2) % 256 % 4 = 2 := by omega
        simp only [hm]
        norm_num
        omega
      · simp only [if_neg h1, if_neg h2, if_neg h3]
        simp only [compactDecode, List.cons_append]
        have hlen : 3 / 4 + 4 ≤ (toLE 4 n ++ rest).length := by
          simp [toLE_length]
        norm_num [toLE_length]
        exact fromLE_toLE 4 n (by norm_num at h ⊢; omega)

/-- SCALE encoding of a raw byte vector (`Vec<u8>` / `&[u8]`): compact length
prefix followed by the bytes. -/
def vecEncode (bs : List Nat) : List Nat := compactEncode bs.length ++ bs

/-- SCALE decoding of a byte vector from a stream. -/
def vecDecode (bytes : List Nat) : Option (List Nat × List Nat) :=
  match compactDecode bytes with
  | none => none
  | some (n, r) => if n ≤ r.length then some (r.take n, r.drop n) else none

theorem vecDecode_encode (bs rest : List Nat) (h : bs.length < 2 ^ 32) :
    vecDecode (vecEncode bs ++ rest) = some (bs, rest) := by
  unfold vecDecode vecEncode
  rw [List.append_assoc, compactDecode_encode _ _ h]
  simp

/-- `DataOrHash<H, L>`: an element representing either full data or its hash
(`merkle-mountain-range/src/lib.rs`). The hash output `H::Output` is a byte
list. -/
inductive DataOrHash (L : Type) where
  | Data (l : L)
  | Hash (h : List Nat)

/-- `DataOrHash::hash`: for a `Data` node, hash of the leaf's **compact**
`using_encoded` form (`leaf.using_encoded(H::hash, true)`); for a `Hash` node,
the stored value. `Hfn` is the abstract hash `H`, `encL` is the leaf type's
`FullLeaf::using_encoded` (argument: the compact flag). -/
def DataOrHash.hash (Hfn : List Nat → List Nat) (encL : L → Bool → List Nat) :
    DataOrHash L → List Nat
  | .Data l => Hfn (encL l true)
  | .Hash h => h

/-- `Encode for DataOrHash` (mod `encoding`): `Data` encodes as
`Either::Left(&[u8])` of the **full** leaf encoding (enum index byte 0 then a
length-prefixed byte vector); `Hash` encodes as `Either::Right(H::Output)`
(index byte 1 then the raw fixed-size hash bytes). -/
def DataOrHash.enc (encL : L → Bool → List Nat) : DataOrHash L → List Nat
  | .Data l => 0 :: vecEncode (encL l false)
  | .Hash h => 1 :: h

/-- `Decode for DataOrHash` (mod `encoding`): decodes the `Either`, then for
`Left` runs the leaf type's decoder `decL` on the extracted byte vector;
`hashLen` is the fixed size of `H::Output`. Stream-style: returns the value
and the remaining bytes. -/
def DataOrHash.dec (hashLen : Nat) (decL : List Nat → Option L) :
    List Nat → Option (DataOrHash L × List Nat)
  | 0 :: rest =>
      match vecDecode rest with
      | none => none
      | some (v, r) =>
        match decL v with
        | none => none
        | some l => some (.Data l, r)
  | 1 :: rest =>
      if hashLen ≤ rest.length then some (.Hash (rest.take hashLen), rest.drop hashLen)
      else none
  | _ => none

/-- Whether a node is a `Hash` variant. -/
def DataOrHash.isHashNode : DataOrHash L → Bool
  | .Data _ => false
  | .Hash _ => true

/-- `FullLeaf for Compact<H, (DataOrHash<H, A>, ...)>::using_encoded`: in
compact mode each tuple element is replaced by `DataOrHash::Hash(elem.hash())`
and the resulting tuple is SCALE-encoded; otherwise the tuple itself is
SCALE-encoded. A SCALE tuple encoding is the concatenation of the elements'
encodings; the macro-generated n-tuples (arity 1..5) are modelled as a list of
elements of a common leaf type. -/
def Compact.usingEncoded (Hfn : List Nat → List Nat) (encL : L → Bool → List Nat)
    (tuple : List (DataOrHash L)) (compact : Bool) : List Nat :=
  if compact then
    (tuple.map fun e =>
      DataOrHash.enc encL (DataOrHash.Hash (DataOrHash.hash Hfn encL e))).flatten
  else
    (tuple.map (DataOrHash.enc encL)).flatten

theorem Compact.usingEncoded_true (Hfn : List Nat → List Nat)
    (encL : L → Bool → List Nat) (tuple : List (DataOrHash L)) :
    Compact.usingEncoded Hfn encL tuple true =
      (tuple.map fun e =>
        DataOrHash.enc encL (DataOrHash.Hash (DataOrHash.hash Hfn encL e))).flatten :=
  rfl

theorem Compact.usingEncoded_false (Hfn : List Nat → List Nat)
    (encL : L → Bool → List Nat) (tuple : List (DataOrHash L)) :
    Compact.usingEncoded Hfn encL tuple false =
      (tuple.map (DataOrHash.enc encL)).flatten :=
  rfl

/-- `Compact::hash` (hash of the compact leaf used as MMR node content):
`using_encoded(H::hash, true)`. -/
def Compact.hashOf (Hfn : List Nat → List Nat) (encL : L → Bool → List Nat)
    (tuple : List (DataOrHash L)) : List Nat :=
  Hfn (Compact.usingEncoded Hfn encL tuple true)

/-- `OpaqueLeaf::from_leaf`: stores the raw bytes of the leaf encoded in its
**compact** form (`leaf.using_encoded(|d| d.to_vec(), true)`). -/
def OpaqueLeaf.fromLeaf (encL : L → Bool → List Nat) (l : L) : List Nat :=
  encL l true

/-- `FullLeaf for OpaqueLeaf::using_encoded`: passes the stored bytes through,
ignoring the compact flag. -/
def OpaqueLeaf.usingEncoded (bytes : List Nat) (_compact : Bool) : List Nat :=
  bytes

abbrev AccountId := Nat

abbrev Balance := Nat

/-- `UnlockChunk`: a portion of funds scheduled to unlock at `era`. -/
structure UnlockChunk where
  value : Balance
  era : Nat
deriving DecidableEq

/-- `RewardDestination` (staking): where rewards for a stash are paid. -/
inductive RewardDestination where
  | Staked
  | Stash
  | Controller
  | Account (a : AccountId)
  | None
deriving DecidableEq

/-- `StakingAccount` (sp-staking): a stash- or controller-wrapped account. -/
inductive StakingAccount where
  | Stash (a : AccountId)
  | Controller (a : AccountId)
deriving DecidableEq

/-- `StakingLedger<T>`: the in-memory ledger of a bonded staker
(`frame/staking/src/ledger.rs`). The `controller` field is not persisted; it
is reconstructed on load. -/
structure StakingLedger where
  stash : AccountId
  total : Balance
  active : Balance
  unlocking : List UnlockChunk
  legacyClaimedRewards : List Nat
  controller : Option AccountId
deriving DecidableEq

/-- The ledger errors used by `ledger.rs` (`Error<T>` variants). -/
inductive StakingError where
  | NotStash
  | NotController
  | BadState
  | AlreadyBonded
  | AlreadyPaired
  | NotEnoughFunds
deriving DecidableEq

/-- The staking storage: the `Bonded`, `Ledger`, `Payee` and `VirtualStakers`
storage maps, the per-account staking lock, and the free balance the lock is
checked against. -/
structure StakingState where
  bonded : AccountId → Option AccountId
  ledgerOf : AccountId → Option StakingLedger
  payee : AccountId → Option RewardDestination
  lock : AccountId → Option Balance
  virtualStakers : AccountId → Bool
  freeBalance : AccountId → Balance

/-- Point update of a storage map. -/
def mapInsert (m : AccountId → Option β) (k : AccountId) (v : β) :
    AccountId → Option β :=
  fun a => if a = k then some v else m a

/-- Point removal from a storage map. -/
def mapRemove (m : AccountId → Option β) (k : AccountId) :
    AccountId → Option β :=
  fun a => if a = k then none else m a

/-- Modelled from the spec: `asset::update_stake` (the `asset` module is not
part of the sources here). It applies the stash's staking lock equal to the
given amount, failing when the free balance is insufficient
("`NotEnoughFunds` (lock application failed because free balance is
insufficient)"). -/
def updateStake (stash : AccountId) (total : Balance) (s : StakingState) :
    Option StakingState :=
  if total ≤ s.freeBalance stash then
    some { s with lock := fun a => if a = stash then some total else s.lock a }
  else none

/-- Modelled from the spec: `asset::kill_stake` releases (removes) the stash's
staking lock. -/
def killStake (stash : AccountId) (s : StakingState) : StakingState :=
  { s with lock := mapRemove s.lock stash }

/-- Modelled from the spec: `Pallet::is_virtual_staker` is membership in the
`VirtualStakers` map ("accounts flagged as virtual stakers"). -/
def isVirtualStaker (s : StakingState) (a : AccountId) : Bool :=
  s.virtualStakers a

/-- `StakingLedger::get`: resolves a stash- or controller-keyed account to its
canonical ledger, setting the in-memory `controller` field, and cross-checks
the `Bonded` pairing (`BadState` on mismatch). -/
def get (s : StakingState) (account : StakingAccount) :
    Except StakingError StakingLedger :=
  let pair : Except StakingError (AccountId × AccountId) :=
    match account with
    | .Stash stash =>
        match s.bonded stash with
        | some c => .ok (stash, c)
        | none => .error .NotStash
    | .Controller controller =>
        match s.ledgerOf controller with
        | some l => .ok (l.stash, controller)
        | none => .error .NotController
  match pair with
  | .error e => .error e
  | .ok (stash, controller) =>
    match s.ledgerOf controller with
    | none => .error .NotController
    | some l0 =>
      let ledger := { l0 with controller := some controller }
      if s.bonded stash = some controller ∧ ledger.stash = stash then .ok ledger
      else .error .BadState

/-- `StakingLedger::controller`: the cached `controller` field, falling back
to `paired_account(Stash(stash))`, i.e. the `Bonded` map. -/
def StakingLedger.controllerLookup (l : StakingLedger) (s : StakingState) :
    Option AccountId :=
  match l.controller with
  | some c => some c
  | none => s.bonded l.stash

/-- `StakingLedger::update`: the sole write path. Fails `NotStash` when the
stash is not bonded; for non-virtual stakers applies the staking lock equal to
`ledger.total` (`NotEnoughFunds` on failure); stores the ledger under its
controller key. Returns the error (if any) together with the resulting
storage state. -/
def update (l : StakingLedger) (s : StakingState) :
    Option StakingError × StakingState :=
  if (s.bonded l.stash).isNone then (some .NotStash, s)
  else
    match (if isVirtualStaker s l.stash then some s
           else updateStake l.stash l.total s) with
    | none => (some .NotEnoughFunds, s)
    | some s1 =>
      match l.controllerLookup s1 with
      | none => (some .NotController, s1)
      | some c => (none, { s1 with ledgerOf := mapInsert s1.ledgerOf c l })

/-- `StakingLedger::bond`: fails `AlreadyBonded` when the stash already has a
`Bonded` entry; otherwise inserts `Payee(stash)` and `Bonded(stash) = stash`
and persists the ledger via `update`. -/
def bond (l : StakingLedger) (payee : RewardDestination) (s : StakingState) :
    Option StakingError × StakingState :=
  if (s.bonded l.stash).isSome then (some .AlreadyBonded, s)
  else
    let s1 := { s with payee := mapInsert s.payee l.stash payee }
    let s2 := { s1 with bonded := mapInsert s1.bonded l.stash l.stash }
    update l s2

/-- `StakingLedger::kill`: removes the ledger (keyed by the bonded
controller), the `Bonded(stash)` and `Payee(stash)` entries; takes the
`VirtualStakers` entry of the ledger's stash if present, otherwise releases
the staking lock. -/
def kill (stash : AccountId) (s : StakingState) :
    Option StakingError × StakingState :=
  match s.bonded stash with
  | none => (some .NotStash, s)
  | some controller =>
    match s.ledgerOf controller with
    | none => (some .NotController, s)
    | some ledger =>
      let s1 := { s with ledgerOf := mapRemove s.ledgerOf controller }
      let s2 := { s1 with bonded := mapRemove s1.bonded stash }
      let s3 := { s2 with payee := mapRemove s2.payee stash }
      if s3.virtualStakers ledger.stash then
        (none, { s3 with virtualStakers :=
          fun a => if a = ledger.stash then false else s3.virtualStakers a })
      else
        (none, killStake ledger.stash s3)

/-- Replacing a node by the `Hash` of its node hash ("hide with a hash"). -/
def hideWithHash (Hfn : List Nat → List Nat) (encL : L → Bool → List Nat)
    (e : DataOrHash L) : DataOrHash L :=
  DataOrHash.Hash (DataOrHash.hash Hfn encL e)

/-- C1: the node hash of a `Data` node is the hash of the leaf's compact
encoding, and the node hash of a `Hash` node is the stored hash itself
(identity, no re-hashing). -/
theorem claim_C1 (Hfn : List Nat → List Nat) (encL : L → Bool → List Nat)
    (l : L) (h : List Nat) :
    DataOrHash.hash Hfn encL (DataOrHash.Data l) = Hfn (encL l true) ∧
    DataOrHash.hash Hfn encL (DataOrHash.Hash h) = h :=
  ⟨rfl, rfl⟩

/-- C2: replacing any tuple elements of a composite `Compact` leaf by the
`Hash` of their node hash leaves the compact-form encoding, and hence the
leaf's node hash, unchanged. -/
theorem claim_C2 (Hfn : List Nat → List Nat) (encL : L → Bool → List Nat)
    (t t' : List (DataOrHash L))
    (hrepl : List.Forall₂ (fun a b => b = a ∨ b = hideWithHash Hfn encL a) t t') :
    Compact.usingEncoded Hfn encL t' true = Compact.usingEncoded Hfn encL t true ∧
    Compact.hashOf Hfn encL t' = Compact.hashOf Hfn encL t := by
  have key : ∀ {a b : DataOrHash L}, (b = a ∨ b = hideWithHash Hfn encL a) →
      DataOrHash.hash Hfn encL b = DataOrHash.hash Hfn encL a := by
    rintro a b (rfl | rfl)
    · rfl
    · cases a <;> rfl
  have henc : Compact.usingEncoded Hfn encL t' true =
      Compact.usingEncoded Hfn encL t true := by
    induction hrepl with
    | nil => rfl
    | cons hab _ ih =>
        simp only [Compact.usingEncoded, if_true, List.map_cons, List.flatten_cons] at ih ⊢
        rw [key hab, ih]
  exact ⟨henc, congrArg Hfn henc⟩

/-- C2 witness: a pair with its first element hidden by its hash keeps the
compact encoding and the compact hash. -/
theorem claim_C2_witness :
    Compact.usingEncoded (fun bs => bs) (fun (n : Nat) _ => [n])
        [DataOrHash.Hash [7], DataOrHash.Data 9] true =
      Compact.usingEncoded (fun bs => bs) (fun (n : Nat) _ => [n])
        [DataOrHash.Data 7, DataOrHash.Data 9] true ∧
    Compact.hashOf (fun bs => bs) (fun (n : Nat) _ => [n])
        [DataOrHash.Hash [7], DataOrHash.Data 9] =
      Compact.hashOf (fun bs => bs) (fun (n : Nat) _ => [n])
        [DataOrHash.Data 7, DataOrHash.Data 9] :=
  claim_C2 _ _ _ _
    (List.Forall₂.cons (Or.inr rfl)
      (List.Forall₂.cons (Or.inl rfl) List.Forall₂.nil))

/-- C10: `OpaqueLeaf::from_leaf` stores the leaf's compact encoding,
`OpaqueLeaf`'s `using_encoded` ignores the compact flag, and wrapping a leaf
as an `OpaqueLeaf` is hash-transparent for `Data` nodes. -/
theorem claim_C10 (Hfn : List Nat → List Nat) (encL : L → Bool → List Nat)
    (l : L) (bytes : List Nat) (c : Bool) :
    OpaqueLeaf.fromLeaf encL l = encL l true ∧
    OpaqueLeaf.usingEncoded bytes c = bytes ∧
    DataOrHash.hash Hfn OpaqueLeaf.usingEncoded
        (DataOrHash.Data (OpaqueLeaf.fromLeaf encL l)) =
      DataOrHash.hash Hfn encL (DataOrHash.Data l) :=
  ⟨rfl, rfl, rfl⟩

/-- C6: `DataOrHash` encoding in full form followed by decoding is the
identity, for `Data` nodes (given that the leaf's full encoding round-trips
through the leaf decoder) and for `Hash` nodes (of the hash output size). -/
theorem claim_C6 {L : Type} (hashLen : Nat) (encL : L → Bool → List Nat)
    (decL : List Nat → Option L) (node : DataOrHash L) (rest : List Nat)
    (hdec : ∀ l, decL (encL l false) = some l)
    (hlen : ∀ l, (encL l false).length < 2 ^ 32)
    (hh : ∀ h, node = DataOrHash.Hash h → h.length = hashLen) :
    DataOrHash.dec hashLen decL (DataOrHash.enc encL node ++ rest) =
      some (node, rest) := by
  cases node with
  | Data l =>
      simp only [DataOrHash.enc, DataOrHash.dec, List.cons_append]
      rw [vecDecode_encode _ _ (hlen l)]
      simp [hdec l]
  | Hash h =>
      have hLen : h.length = hashLen := hh h rfl
      simp only [DataOrHash.enc, DataOrHash.dec, List.cons_append]
      rw [if_pos (by simp [← hLen])]
      subst hLen
      rw [List.take_append_of_le_length le_rfl,
        List.drop_append_of_le_length le_rfl]
      simp

/-- C6 witness: a concrete `Data` node round-trips with trailing bytes left
over. -/
theorem claim_C6_witness :
    DataOrHash.dec 1 (fun bs => bs.head?)
        (DataOrHash.enc (fun (n : Nat) _ => [n]) (DataOrHash.Data 5) ++ [9]) =
      some (DataOrHash.Data 5, [9]) :=
  claim_C6 1 _ _ _ _ (fun _ => rfl) (fun _ => by norm_num)
    (fun _ hx => by cases hx)

theorem compact_eq_full_of_all_hash (Hfn : List Nat → List Nat)
    (encL : L → Bool → List Nat) (tuple : List (DataOrHash L))
    (h : ∀ e ∈ tuple, DataOrHash.isHashNode e = true) :
    Compact.usingEncoded Hfn encL tuple true =
      Compact.usingEncoded Hfn encL tuple false := by
  induction tuple with
  | nil => rfl
  | cons e t ih =>
      cases e with
      | Data l =>
          have := h _ (List.mem_cons_self _ _)
          simp [DataOrHash.isHashNode] at this
      | Hash hh =>
          have ht := ih fun x hx => h x (List.mem_cons_of_mem _ hx)
          simp only [Compact.usingEncoded_true, Compact.usingEncoded_false,
            List.map_cons, List.flatten_cons, DataOrHash.hash,
            DataOrHash.enc] at ht ⊢
          rw [ht]

theorem compact_ne_full_of_some_data (Hfn : List Nat → List Nat)
    (encL : L → Bool → List Nat) (tuple : List (DataOrHash L))
    (h : ∃ e ∈ tuple, DataOrHash.isHashNode e = false) :
    Compact.usingEncoded Hfn encL tuple true ≠
      Compact.usingEncoded Hfn encL tuple false := by
  induction tuple with
  | nil => simp at h
  | cons e t ih =>
      cases e with
      | Data l =>
          intro heq
          simp only [Compact.usingEncoded_true, Compact.usingEncoded_false,
            List.map_cons, List.flatten_cons, DataOrHash.enc,
            List.cons_append] at heq
          exact Nat.one_ne_zero (List.head_eq_of_cons_eq heq)
      | Hash hh =>
          obtain ⟨x, hx, hxd⟩ := h
          have hxt : x ∈ t := by
            rcases List.mem_cons.mp hx with rfl | hm
            · simp [DataOrHash.isHashNode] at hxd
            · exact hm
          intro heq
          simp only [Compact.usingEncoded_true, Compact.usingEncoded_false,
            List.map_cons, List.flatten_cons, DataOrHash.enc, DataOrHash.hash,
            List.cons_append, List.cons.injEq, true_and] at heq
          exact ih ⟨x, hxt, hxd⟩ (by
            simp only [Compact.usingEncoded_true, Compact.usingEncoded_false]
            exact List.append_cancel_left heq)

/-- C5: the hash of a composite `Compact` leaf's compact encoding differs
from the hash of its full encoding (for an injective hash), unless every
tuple element is already a `Hash` node, in which case the two encodings, and
hence the hashes, coincide. -/
theorem claim_C5 (Hfn : List Nat → List Nat) (encL : L → Bool → List Nat)
    (tuple : List (DataOrHash L)) (hinj : Function.Injective Hfn) :
    Hfn (Compact.usingEncoded Hfn encL tuple true) =
      Hfn (Compact.usingEncoded Hfn encL tuple false) ↔
    ∀ e ∈ tuple, DataOrHash.isHashNode e = true := by
  constructor
  · intro heq
    by_contra hnot
    push_neg at hnot
    obtain ⟨e, he, hne⟩ := hnot
    exact compact_ne_full_of_some_data Hfn encL tuple
      ⟨e, he, by simpa using hne⟩ (hinj heq)
  · intro hall
    exact congrArg Hfn (compact_eq_full_of_all_hash Hfn encL tuple hall)

/-- C5 witness: at an injective hash and a pair with one `Data` element, the
compact and full hashes are distinct (the iff instantiated). -/
theorem claim_C5_witness :
    ((fun bs => bs) (Compact.usingEncoded (fun bs => bs) (fun (n : Nat) _ => [n])
        [DataOrHash.Data 7, DataOrHash.Hash [9]] true) =
      (fun bs => bs) (Compact.usingEncoded (fun bs => bs) (fun (n : Nat) _ => [n])
        [DataOrHash.Data 7, DataOrHash.Hash [9]] false) ↔
    ∀ e ∈ [DataOrHash.Data 7, DataOrHash.Hash ([9] : List Nat)],
      DataOrHash.isHashNode e = true) :=
  claim_C5 _ _ _ (fun _ _ hx => hx)

theorem get_stash_eq (s : StakingState) (stash : AccountId) :
    get s (StakingAccount.Stash stash) =
      match s.bonded stash with
      | none => Except.error StakingError.NotStash
      | some c =>
        match s.ledgerOf c with
        | none => Except.error StakingError.NotController
        | some l0 =>
          if s.bonded stash = some c ∧ l0.stash = stash
          then Except.ok { l0 with controller := some c }
          else Except.error StakingError.BadState := by
  cases hb : s.bonded stash with
  | none => simp [get, hb]
  | some c =>
      cases hl : s.ledgerOf c with
      | none => simp [get, hb, hl]
      | some l0 => simp [get, hb, hl]

theorem update_eq (l : StakingLedger) (s : StakingState) :
    update l s =
      match s.bonded l.stash with
      | none => (some StakingError.NotStash, s)
      | some _ =>
        if isVirtualStaker s l.stash then
          match l.controllerLookup s with
          | none => (some StakingError.NotController, s)
          | some c => (none, { s with ledgerOf := mapInsert s.ledgerOf c l })
        else
          match updateStake l.stash l.total s with
          | none => (some StakingError.NotEnoughFunds, s)
          | some s1 =>
            match l.controllerLookup s1 with
            | none => (some StakingError.NotController, s1)
            | some c => (none, { s1 with ledgerOf := mapInsert s1.ledgerOf c l }) := by
  unfold update
  cases s.bonded l.stash with
  | none => rfl
  | some c => cases isVirtualStaker s l.stash <;> rfl

theorem controllerLookup_isSome (l : StakingLedger) (s : StakingState)
    (c : AccountId) (hb : s.bonded l.stash = some c) :
    ∃ k, l.controllerLookup s = some k := by
  unfold StakingLedger.controllerLookup
  cases l.controller with
  | some c0 => exact ⟨c0, rfl⟩
  | none => exact ⟨c, hb⟩

theorem updateStake_bonded (a : AccountId) (t : Balance) (s s1 : StakingState)
    (hu : updateStake a t s = some s1) : s1.bonded = s.bonded := by
  unfold updateStake at hu
  split at hu
  · cases hu; rfl
  · cases hu

theorem update_ok_or_same (l : StakingLedger) (s : StakingState) :
    (update l s).1 = none ∨ (update l s).2 = s := by
  rw [update_eq]
  cases hb : s.bonded l.stash with
  | none => right; rfl
  | some c =>
      cases hv : isVirtualStaker s l.stash with
      | true =>
          cases hk : l.controllerLookup s with
          | none => right; simp [hk]
          | some k => left; simp [hk]
      | false =>
          cases hu : updateStake l.stash l.total s with
          | none => right; simp [hu]
          | some s1 =>
              cases hk : l.controllerLookup s1 with
              | none =>
                  exfalso
                  obtain ⟨k, hk2⟩ := controllerLookup_isSome l s1 c
                    (by rw [updateStake_bonded _ _ _ _ hu]; exact hb)
                  rw [hk] at hk2
                  cases hk2
              | some k => left; simp [hu, hk]

theorem update_error_state (l : StakingLedger) (s : StakingState)
    (e : StakingError) (he : (update l s).1 = some e) : (update l s).2 = s := by
  rcases update_ok_or_same l s with h | h
  · rw [he] at h
    cases h
  · exact h

theorem update_fst_ne_alreadyBonded (l : StakingLedger) (s : StakingState) :
    (update l s).1 ≠ some StakingError.AlreadyBonded := by
  rw [update_eq]
  cases hb : s.bonded l.stash with
  | none => simp
  | some c =>
      cases hv : isVirtualStaker s l.stash with
      | true => cases hk : l.controllerLookup s <;> simp [hk]
      | false =>
          cases hu : updateStake l.stash l.total s with
          | none => simp [hu]
          | some s1 => cases hk : l.controllerLookup s1 <;> simp [hu, hk]

/-- C4: when `Bonded(stash)` points to a controller whose ledger has a
different stash, `get(Stash(stash))` returns `BadState`; and whenever `get`
succeeds, the ledger's `stash` is the queried stash and its `controller`
field caches the bonded controller. -/
theorem claim_C4 (s : StakingState) (stash ctrl : AccountId) (l : StakingLedger) :
    (s.bonded stash = some ctrl → s.ledgerOf ctrl = some l → l.stash ≠ stash →
      get s (StakingAccount.Stash stash) = Except.error StakingError.BadState) ∧
    (∀ l', get s (StakingAccount.Stash stash) = Except.ok l' →
      l'.stash = stash ∧ ∃ c, s.bonded stash = some c ∧ l'.controller = some c) := by
  constructor
  · intro hb hl hne
    rw [get_stash_eq, hb]
    simp [hl, hne]
  · intro l' hok
    rw [get_stash_eq] at hok
    cases hb : s.bonded stash with
    | none => rw [hb] at hok; cases hok
    | some c =>
        rw [hb] at hok
        cases hl : s.ledgerOf c with
        | none => simp [hl] at hok
        | some l0 =>
            simp only [hl, true_and] at hok
            by_cases hcond : l0.stash = stash
            · rw [if_pos hcond] at hok
              cases hok
              exact ⟨hcond, c, rfl, rfl⟩
            · rw [if_neg hcond] at hok
              cases hok

/-- C4 witness: `Bonded(0) = 1` but the ledger under `1` has stash `2`, so
`get(Stash(0))` fails with `BadState`. -/
theorem claim_C4_witness :
    get { bonded := fun _ => some 1, ledgerOf := fun _ => some ⟨2, 0, 0, [], [], none⟩,
          payee := fun _ => none, lock := fun _ => none,
          virtualStakers := fun _ => false, freeBalance := fun _ => 0 }
        (StakingAccount.Stash 0) = Except.error StakingError.BadState :=
  (claim_C4 _ 0 1 ⟨2, 0, 0, [], [], none⟩).1 rfl rfl (by decide)

/-- C7: for a bonded stash with an existing ledger, `kill` removes the
`Ledger` entry keyed by the bonded controller, the `Bonded(stash)` and
`Payee(stash)` entries, releases the staking lock unless the stash is a
virtual staker (then only the `VirtualStakers` entry is removed), and
afterwards `get(Stash(stash))` fails `NotStash`; `kill` fails `NotStash`
when the stash has no `Bonded` entry. -/
theorem claim_C7 (s : StakingState) (stash c : AccountId) (l : StakingLedger) :
    (s.bonded stash = none → kill stash s = (some StakingError.NotStash, s)) ∧
    (s.bonded stash = some c → s.ledgerOf c = some l → l.stash = stash →
      (kill stash s).1 = none ∧
      (kill stash s).2.ledgerOf c = none ∧
      (kill stash s).2.bonded stash = none ∧
      (kill stash s).2.payee stash = none ∧
      (s.virtualStakers stash = true →
        (kill stash s).2.lock = s.lock ∧
        (kill stash s).2.virtualStakers stash = false) ∧
      (s.virtualStakers stash = false →
        (kill stash s).2.lock stash = none) ∧
      get (kill stash s).2 (StakingAccount.Stash stash) =
        Except.error StakingError.NotStash) := by
  constructor
  · intro hb
    simp [kill, hb]
  · intro hb hl hls
    subst hls
    cases hv : s.virtualStakers l.stash with
    | true =>
        refine ⟨?_, ?_, ?_, ?_, fun _ => ⟨?_, ?_⟩, fun hvf => ?_, ?_⟩
        · simp [kill, hb, hl, hv]
        · simp [kill, hb, hl, hv, mapRemove]
        · simp [kill, hb, hl, hv, mapRemove]
        · simp [kill, hb, hl, hv, mapRemove]
        · simp [kill, hb, hl, hv]
        · simp [kill, hb, hl, hv]
        · exact Bool.noConfusion hvf
        · rw [get_stash_eq]
          simp [kill, hb, hl, hv, mapRemove]
    | false =>
        refine ⟨?_, ?_, ?_, ?_, fun hvt => ?_, fun _ => ?_, ?_⟩
        · simp [kill, hb, hl, hv]
        · simp [kill, hb, hl, hv, mapRemove, killStake]
        · simp [kill, hb, hl, hv, mapRemove, killStake]
        · simp [kill, hb, hl, hv, mapRemove, killStake]
        · exact Bool.noConfusion hvt
        · simp [kill, hb, hl, hv, mapRemove, killStake]
        · rw [get_stash_eq]
          simp [kill, hb, hl, hv, mapRemove, killStake]

def lW7 : StakingLedger := ⟨0, 5, 5, [], [], some 1⟩

def sW7 : StakingState :=
  ⟨fun _ => some 1, fun _ => some lW7, fun _ => some RewardDestination.Staked,
   fun _ => some 5, fun _ => false, fun _ => 10⟩

/-- C7 witness: killing the bonded stash `0` (controller `1`, not virtual)
clears the three storage entries and the lock, and a subsequent `get` fails
`NotStash`. -/
theorem claim_C7_witness :
    (kill 0 sW7).1 = none ∧
    (kill 0 sW7).2.ledgerOf 1 = none ∧
    (kill 0 sW7).2.bonded 0 = none ∧
    (kill 0 sW7).2.payee 0 = none ∧
    (sW7.virtualStakers 0 = true →
      (kill 0 sW7).2.lock = sW7.lock ∧ (kill 0 sW7).2.virtualStakers 0 = false) ∧
    (sW7.virtualStakers 0 = false → (kill 0 sW7).2.lock 0 = none) ∧
    get (kill 0 sW7).2 (StakingAccount.Stash 0) =
      Except.error StakingError.NotStash :=
  (claim_C7 sW7 0 1 lW7).2 rfl rfl rfl

/-- C8: `update` fails `NotStash` when the ledger's stash is not bonded; for
a bonded, non-virtual stash it sets the staking lock to exactly
`ledger.total`, failing `NotEnoughFunds` when the free balance is too small;
for virtual stakers the lock is untouched; on success the ledger is stored
under its controller key. -/
theorem claim_C8 (l : StakingLedger) (s : StakingState) (c : AccountId) :
    (s.bonded l.stash = none → update l s = (some StakingError.NotStash, s)) ∧
    (s.bonded l.stash = some c → isVirtualStaker s l.stash = false →
      s.freeBalance l.stash < l.total →
      update l s = (some StakingError.NotEnoughFunds, s)) ∧
    (s.bonded l.stash = some c → isVirtualStaker s l.stash = false →
      l.total ≤ s.freeBalance l.stash →
      (update l s).1 = none ∧
      (update l s).2.lock l.stash = some l.total ∧
      ∃ k, l.controllerLookup s = some k ∧ (update l s).2.ledgerOf k = some l) ∧
    (s.bonded l.stash = some c → isVirtualStaker s l.stash = true →
      (update l s).1 = none ∧ (update l s).2.lock = s.lock ∧
      ∃ k, l.controllerLookup s = some k ∧ (update l s).2.ledgerOf k = some l) := by
  refine ⟨?_, ?_, ?_, ?_⟩
  · intro hb
    rw [update_eq, hb]
  · intro hb hv hlt
    rw [update_eq, hb]
    have hu : updateStake l.stash l.total s = none := by
      unfold updateStake
      rw [if_neg (Nat.not_le.mpr hlt)]
    simp [hv, hu]
  · intro hb hv hle
    have hu : updateStake l.stash l.total s =
        some { s with lock := fun a => if a = l.stash then some l.total else s.lock a } := by
      unfold updateStake
      rw [if_pos hle]
    obtain ⟨k, hk⟩ := controllerLookup_isSome l s c hb
    have hk1 : l.controllerLookup
        { s with lock := fun a => if a = l.stash then some l.total else s.lock a } =
        some k := hk
    rw [update_eq, hb]
    simp only [hv, Bool.false_eq_true, if_false, hu, hk1]
    refine ⟨by trivial, by simp, k, by trivial, by simp [mapInsert]⟩
  · intro hb hv
    obtain ⟨k, hk⟩ := controllerLookup_isSome l s c hb
    rw [update_eq, hb]
    simp only [hv, if_true, hk]
    refine ⟨by trivial, by trivial, k, by trivial, by simp [mapInsert]⟩

def lW8 : StakingLedger := ⟨0, 5, 5, [], [], some 0⟩

def sW8 : StakingState :=
  ⟨fun _ => some 0, fun _ => none, fun _ => none, fun _ => none,
   fun _ => false, fun _ => 10⟩

/-- C8 witness: a bonded, non-virtual stash with sufficient free balance gets
its lock set to the ledger total and the ledger stored under the controller
key. -/
theorem claim_C8_witness :
    (update lW8 sW8).1 = none ∧
    (update lW8 sW8).2.lock 0 = some 5 ∧
    (∃ k, lW8.controllerLookup sW8 = some k ∧
      (update lW8 sW8).2.ledgerOf k = some lW8) :=
  (claim_C8 lW8 sW8 0).2.2.1 rfl rfl (by decide)

/-- C9: `bond` fails `AlreadyBonded` exactly when the ledger's stash already
has a `Bonded` entry; otherwise it inserts `Payee(stash)`, inserts
`Bonded(stash) = stash` (controller mapped 1:1 to the stash), and persists
the ledger via `update`. -/
theorem claim_C9 (l : StakingLedger) (p : RewardDestination) (s : StakingState) :
    ((bond l p s).1 = some StakingError.AlreadyBonded ↔
      (s.bonded l.stash).isSome = true) ∧
    (s.bonded l.stash = none →
      bond l p s =
        update l { s with payee := mapInsert s.payee l.stash p,
                          bonded := mapInsert s.bonded l.stash l.stash }) := by
  have hbond : (s.bonded l.stash).isSome = false →
      bond l p s =
        update l { s with payee := mapInsert s.payee l.stash p,
                          bonded := mapInsert s.bonded l.stash l.stash } := by
    intro hb
    simp [bond, hb]
  constructor
  · constructor
    · intro h
      by_contra hn
      rw [Bool.not_eq_true] at hn
      rw [hbond hn] at h
      exact update_fst_ne_alreadyBonded _ _ h
    · intro h
      simp [bond, h]
  · intro h
    exact hbond (by rw [h]; rfl)

def lW9 : StakingLedger := ⟨3, 4, 4, [], [], some 3⟩

def sW9 : StakingState :=
  ⟨fun _ => none, fun _ => none, fun _ => none, fun _ => none,
   fun _ => false, fun _ => 7⟩

/-- C9 witness: an unbonded stash is bonded by inserting the payee and the
1:1 `Bonded` entry and then persisting via `update`. -/
theorem claim_C9_witness :
    bond lW9 RewardDestination.Staked sW9 =
      update lW9 { sW9 with
        payee := mapInsert sW9.payee lW9.stash RewardDestination.Staked,
        bonded := mapInsert sW9.bonded lW9.stash lW9.stash } :=
  (claim_C9 lW9 RewardDestination.Staked sW9).2 rfl

def lW3 : StakingLedger := ⟨0, 5, 5, [], [], some 0⟩

def sW3 : StakingState :=
  ⟨fun _ => none, fun _ => none, fun _ => none, fun _ => none,
   fun _ => false, fun _ => 0⟩

/-- C3 counterexample: bonding an unbonded stash whose free balance cannot
cover the ledger total returns `NotEnoughFunds`, yet the `Payee` (and
`Bonded`) entries have been written: `bond` has a partial-write error path. -/
theorem claim_C3_counterexample :
    (bond lW3 RewardDestination.Staked sW3).1 = some StakingError.NotEnoughFunds ∧
    (bond lW3 RewardDestination.Staked sW3).2.payee 0 =
      some RewardDestination.Staked ∧
    (bond lW3 RewardDestination.Staked sW3).2.bonded 0 = some 0 ∧
    sW3.payee 0 = none ∧ sW3.bonded 0 = none := by
  decide

/-- C3 (amended): `update` is atomic — any error leaves the state exactly as
before; `bond` leaves the state untouched when it fails `AlreadyBonded`, but
when the inner `update` fails the `Payee(stash)` and `Bonded(stash)`
insertions persist (the ledger map and locks are untouched). -/
theorem claim_C3 (l : StakingLedger) (p : RewardDestination)
    (s : StakingState) (e : StakingError) :
    ((update l s).1 = some e → (update l s).2 = s) ∧
    ((bond l p s).1 = some StakingError.AlreadyBonded → (bond l p s).2 = s) ∧
    ((bond l p s).1 = some e →
      (bond l p s).2 = s ∨
      (bond l p s).2 =
        { s with payee := mapInsert s.payee l.stash p,
                 bonded := mapInsert s.bonded l.stash l.stash }) := by
  have hbond : (s.bonded l.stash).isSome = false →
      bond l p s =
        update l { s with payee := mapInsert s.payee l.stash p,
                          bonded := mapInsert s.bonded l.stash l.stash } := by
    intro hb
    simp [bond, hb]
  refine ⟨update_error_state l s e, ?_, ?_⟩
  · intro h
    cases hb : (s.bonded l.stash).isSome with
    | true => simp [bond, hb]
    | false =>
        rw [hbond hb] at h
        exact absurd h (update_fst_ne_alreadyBonded _ _)
  · intro h
    cases hb : (s.bonded l.stash).isSome with
    | true => left; simp [bond, hb]
    | false =>
        rcases update_ok_or_same l
            { s with payee := mapInsert s.payee l.stash p,
                     bonded := mapInsert s.bonded l.stash l.stash } with hu | hu
        · rw [hbond hb] at h
          rw [h] at hu
          cases hu
        · right
          rw [hbond hb]
          exact hu

/-- C3 witness: for the empty state, `update` fails `NotStash` and the state
is unchanged. -/
theorem claim_C3_witness :
    (update lW3 sW3).2 = sW3 :=
  (claim_C3 lW3 RewardDestination.Staked sW3 StakingError.NotStash).1 (by decide)

end Spec2Proof
